import Mathlib

/-!
Verification of the diadata asset repository (`pkg/model/assets.go`).

The Go file is a relational / cache access layer.  We shallowly embed it:
each SQL table becomes a Lean list of row structures, each repository
method becomes a pure Lean function from the table state (and its string
arguments) to its results, and the redis cache becomes an association
list.  Fallible operations return `Except` or pair their result with an
`Option String` error component, mirroring the Go `(value, error)`
returns.  Driver-level I/O (the postgres wire protocol, redis transport,
influx HTTP) is out of scope; queries are evaluated against the table
lists with SQL `where` clauses translated predicate by predicate.
-/

namespace Diadata

/-- One decimal digit step of Go `strconv.Atoi`: accumulate digits, fail on
any non-digit character. -/
def digitsVal? : List Char → Nat → Option Nat
  | [], acc => some acc
  | c :: cs, acc =>
    if c.isDigit then digitsVal? cs (acc * 10 + (c.toNat - 48)) else none

/-- Parse a non-empty all-digit string to a natural number. -/
def parseDigits? (cs : List Char) : Option Nat :=
  if cs.isEmpty then none else digitsVal? cs 0

/-- Model of Go `strconv.Atoi`: optional sign followed by at least one
digit and nothing else.  (We ignore 64-bit overflow: the decimals column
holds small numbers.) -/
def atoi? (s : String) : Option Int :=
  match s.toList with
  | '+' :: cs => (parseDigits? cs).map (fun n => (n : Int))
  | '-' :: cs => (parseDigits? cs).map (fun n => -(n : Int))
  | cs => (parseDigits? cs).map (fun n => (n : Int))

/-- Go conversion `uint8(i)` for an `int` value: truncation mod 2^8. -/
def uint8ofInt (i : Int) : Nat := (i % 256).toNat

/-- `dia.Asset` — the in-memory asset value object.  All fields default to
their Go zero values. -/
structure Asset where
  symbol : String := ""
  name : String := ""
  address : String := ""
  decimals : Nat := 0
  blockchain : String := ""
deriving DecidableEq, Repr, Inhabited

/-- A row of the postgres `asset` table.  The `decimals` column is stored
textually (every read path scans it into a Go `string` and parses it with
`strconv.Atoi`). -/
structure AssetRow where
  asset_id : String := ""
  symbol : String := ""
  name : String := ""
  address : String := ""
  decimals : String := ""
  blockchain : String := ""
deriving DecidableEq, Repr, Inhabited

/-- A row of the postgres `exchangesymbol` table.  `asset_id` is a
nullable foreign key, hence `Option`. -/
structure ExchangeSymbolRow where
  symbol : String := ""
  exchange : String := ""
  verified : Bool := false
  asset_id : Option String := none
deriving DecidableEq, Repr, Inhabited

/-- A row of the postgres `exchangepair` table.  Both token links are
nullable uuid columns. -/
structure ExchangePairRow where
  symbol : String := ""
  foreignname : String := ""
  exchange : String := ""
  verified : Bool := false
  id_quotetoken : Option String := none
  id_basetoken : Option String := none
deriving DecidableEq, Repr, Inhabited

/-- `dia.Pair` — the underlying pair of assets of an exchange pair. -/
structure Pair where
  quoteToken : Asset := {}
  baseToken : Asset := {}
deriving DecidableEq, Repr, Inhabited

/-- `dia.ExchangePair` — the exchange pair value object. -/
structure ExchangePair where
  symbol : String := ""
  foreignName : String := ""
  exchange : String := ""
  verified : Bool := false
  underlyingPair : Pair := {}
deriving DecidableEq, Repr, Inhabited

/-- Scan of the standard five-column asset projection
(symbol,name,address,decimals,blockchain) followed by
`strconv.Atoi(decimals)` and the `uint8` conversion; `none` when the
textual decimals column does not parse. -/
def rowToAsset? (r : AssetRow) : Option Asset :=
  (atoi? r.decimals).map fun d =>
    { symbol := r.symbol, name := r.name, address := r.address,
      decimals := uint8ofInt d, blockchain := r.blockchain }

/-- Hex digit value, both cases (Go `encoding/hex`). -/
def hexDigit? (c : Char) : Option Nat :=
  if c.isDigit then some (c.toNat - 48)
  else if 'a' ≤ c ∧ c ≤ 'f' then some (c.toNat - 97 + 10)
  else if 'A' ≤ c ∧ c ≤ 'F' then some (c.toNat - 65 + 10)
  else none

/-- Byte decoding of `encoding/hex.DecodeString` as used by go-ethereum
`common.Hex2Bytes`: decode hex pairs left to right, keeping the bytes
decoded before the first invalid character (the error is discarded). -/
def hexPairsToBytes : List Char → List Nat
  | c1 :: c2 :: rest =>
    match hexDigit? c1, hexDigit? c2 with
    | some h, some l => (16 * h + l) :: hexPairsToBytes rest
    | _, _ => []
  | _ => []

/-- go-ethereum `common.FromHex`: strip an optional `0x`/`0X` prefix,
left-pad to even length with a zero digit, decode. -/
def fromHex (s : String) : List Nat :=
  let s1 := if s.startsWith "0x" ∨ s.startsWith "0X" then s.drop 2 else s
  let s2 := if s1.length % 2 = 1 then "0" ++ s1 else s1
  hexPairsToBytes s2.toList

/-- go-ethereum `common.BytesToAddress`: keep the last 20 bytes, or
left-pad with zero bytes to 20. -/
def bytesToAddress (bs : List Nat) : List Nat :=
  if bs.length ≥ 20 then bs.drop (bs.length - 20)
  else List.replicate (20 - bs.length) 0 ++ bs

/-- Render one byte as two lowercase hex digits. -/
def byteToHex (b : Nat) : String :=
  let dig := fun (n : Nat) => (Char.ofNat (if n < 10 then 48 + n else 97 + n - 10))
  String.mk [dig (b / 16 % 16), dig (b % 16)]

/-- Model of the external call `common.HexToAddress(s).Hex()`: parse the
string into a 20-byte address and re-encode it with a `0x` prefix.  The
EIP-55 mixed-case checksum applied by `Hex()` (a pure re-casing of the
hex digits computed from a keccak hash inside the external go-ethereum
library) is not reproduced; we render lowercase. -/
def hexToAddressHex (s : String) : String :=
  "0x" ++ String.join ((bytesToAddress (fromHex s)).map byteToHex)

/-!  ## asset TABLE methods  -/

/-- `GetAssetID`: `select asset_id from asset where address=$1 and
blockchain=$2`, scanning the single result row.  `QueryRow` surfaces
pgx's "no rows in result set" error when nothing matches. -/
def GetAssetID (table : List AssetRow) (asset : Asset) : Except String String :=
  match table.find? (fun r => r.address == asset.address && r.blockchain == asset.blockchain) with
  | none => .error "no rows in result set"
  | some r => .ok r.asset_id

/-- `GetAssetByID`: `select symbol,name,address,decimals,blockchain from
asset where asset_id=$1`, then `strconv.Atoi` on the textual decimals. -/
def GetAssetByID (table : List AssetRow) (assetID : String) : Except String Asset :=
  match table.find? (fun r => r.asset_id == assetID) with
  | none => .error "no rows in result set"
  | some r =>
    match rowToAsset? r with
    | none => .error "invalid decimals syntax"
    | some a => .ok a

/-- `GetAllAssets(blockchain)`: `select symbol,name,address,decimals from
asset where blockchain=$1`.  Per row: the scan errors are only logged
(the loop's `err` shadows the outer one), a row whose decimals column
fails `strconv.Atoi` is skipped with `continue`, and the surviving
assets get their `Blockchain` field set to the argument.  The returned
error component is the outer `err`, which stays `nil` once the query
succeeded. -/
def GetAllAssets (table : List AssetRow) (blockchain : String) :
    List Asset × Option String :=
  ((table.filter (fun r => r.blockchain == blockchain)).filterMap
    (fun r => (atoi? r.decimals).map fun d =>
      { symbol := r.symbol, name := r.name, address := r.address,
        decimals := uint8ofInt d, blockchain := blockchain }), none)

/-- The row loop shared by `GetAssetsBySymbolName` (and `GetAssets`): scan
each row, abort with the `Atoi` error — returning the assets accumulated
so far — as soon as a decimals column fails to parse. -/
def scanAssetRows : List AssetRow → List Asset × Option String
  | [] => ([], none)
  | r :: rs =>
    match rowToAsset? r with
    | none => ([], some "invalid decimals syntax")
    | some a =>
      let rest := scanAssetRows rs
      (a :: rest.1, rest.2)

/-- `GetAssetsBySymbolName(symbol, name)`: three-way branch of the Go
source — `name == ""` selects `where symbol=$1`, otherwise `symbol == ""`
selects `where name=$1`, otherwise `where symbol=$1 and name=$2`. -/
def GetAssetsBySymbolName (table : List AssetRow) (symbol name : String) :
    List Asset × Option String :=
  let rows :=
    if name == "" then table.filter (fun r => r.symbol == symbol)
    else if symbol == "" then table.filter (fun r => r.name == name)
    else table.filter (fun r => r.symbol == symbol && r.name == name)
  scanAssetRows rows

/-- The `where` clause `IdentifyAsset` concatenates: one predicate per
non-default field of the candidate, joined by `and`.  The address
predicate compares against `common.HexToAddress(addr).Hex()`; the
decimals predicate compares the textual column with the `%d` rendering
of the `uint8` field. -/
def identifyPreds (a : Asset) : List (AssetRow → Bool) :=
  (if a.symbol == "" then [] else [fun r => r.symbol == a.symbol]) ++
  (if a.name == "" then [] else [fun r => r.name == a.name]) ++
  (if a.address == "" then [] else [fun r => r.address == hexToAddressHex a.address]) ++
  (if a.decimals == 0 then [] else [fun r => r.decimals == toString a.decimals]) ++
  (if a.blockchain == "" then [] else [fun r => r.blockchain == a.blockchain])

/-- `IdentifyAsset(asset)`: dynamic conjunctive filter.  When every field
of the candidate is default, the built statement is
`select ... from asset where ` — an empty `where` clause, which the SQL
engine rejects as a syntax error (pgx prepares the statement inside
`Query`, so the error is returned before any row is read).  Otherwise
rows are filtered by the conjunction; a row whose decimals column fails
`strconv.Atoi` is logged and skipped with `continue`. -/
def IdentifyAsset (table : List AssetRow) (a : Asset) : Except String (List Asset) :=
  let ps := identifyPreds a
  if ps.isEmpty then .error "syntax error at end of input"
  else .ok ((table.filter (fun r => ps.all (fun p => p r))).filterMap rowToAsset?)

/-!  ## exchangesymbol TABLE methods  -/

/-- `SetExchangeSymbol(exchange, symbol)`: `insert into exchangesymbol
(symbol,exchange) select $1,$2 where not exists (select 1 from
exchangesymbol where symbol=$1 and exchange=$2)` — a conditional insert
that is a no-op when the pair is already present.  The unlisted columns
take their schema defaults: per the spec a symbol is "inserted unverified
when first observed", so `verified` starts `false` and the asset link
starts null. -/
def SetExchangeSymbol (table : List ExchangeSymbolRow) (exchange symbol : String) :
    List ExchangeSymbolRow :=
  if table.any (fun r => r.symbol == symbol && r.exchange == exchange) then table
  else table ++ [{ symbol := symbol, exchange := exchange, verified := false, asset_id := none }]

/-- `VerifyExchangeSymbol(exchange, symbol, assetID)`: `update
exchangesymbol set verified=true,asset_id=$1 where symbol=$2 and
exchange=$3`; the command tag's affected-row count decides the boolean
(`success` iff the count is not "0").  The Go error return is `nil` on a
successful round trip, so the model returns only the new table and the
boolean. -/
def VerifyExchangeSymbol (table : List ExchangeSymbolRow)
    (exchange symbol assetID : String) : List ExchangeSymbolRow × Bool :=
  (table.map (fun r =>
      if r.symbol == symbol && r.exchange == exchange then
        { r with verified := true, asset_id := some assetID }
      else r),
   (table.countP (fun r => r.symbol == symbol && r.exchange == exchange)) != 0)

/-- `GetExchangeSymbolAssetID(exchange, symbol)`: `select asset_id,
verified from exchangesymbol where symbol=$1 and exchange=$2` via
`QueryRow`; a null uuid leaves the returned `assetID` as the empty
string, and a missing row surfaces pgx's no-rows error. -/
def GetExchangeSymbolAssetID (table : List ExchangeSymbolRow)
    (exchange symbol : String) : Except String (String × Bool) :=
  match table.find? (fun r => r.symbol == symbol && r.exchange == exchange) with
  | none => .error "no rows in result set"
  | some r => .ok (r.asset_id.getD "", r.verified)

/-!  ## exchangepair TABLE methods  -/

/-- `GetExchangePair(exchange, foreignname)`: fetch
`symbol,verified,id_quotetoken,id_basetoken` for the pair, then resolve
each non-null uuid through `GetAssetByID` (propagating its error); a
null uuid leaves the corresponding nested token as the zero-value
`dia.Asset`. -/
def GetExchangePair (assetTable : List AssetRow) (pairTable : List ExchangePairRow)
    (exchange foreignname : String) : Except String ExchangePair :=
  match pairTable.find? (fun r => r.exchange == exchange && r.foreignname == foreignname) with
  | none => .error "no rows in result set"
  | some row =>
    let ep : ExchangePair :=
      { exchange := exchange, foreignName := foreignname,
        symbol := row.symbol, verified := row.verified, underlyingPair := {} }
    match row.id_quotetoken with
    | none =>
      match row.id_basetoken with
      | none => .ok ep
      | some bid =>
        match GetAssetByID assetTable bid with
        | .error e => .error e
        | .ok bt => .ok { ep with underlyingPair := { ep.underlyingPair with baseToken := bt } }
    | some qid =>
      match GetAssetByID assetTable qid with
      | .error e => .error e
      | .ok qt =>
        let ep1 := { ep with underlyingPair := { ep.underlyingPair with quoteToken := qt } }
        match row.id_basetoken with
        | none => .ok ep1
        | some bid =>
          match GetAssetByID assetTable bid with
          | .error e => .error e
          | .ok bt => .ok { ep1 with underlyingPair := { ep1.underlyingPair with baseToken := bt } }

/-- The redis exchange-pair cache: `SetExchangePairCache` writes under
`keyExchangePairCache + exchange + "_" + pair.ForeignName`, overwriting
any previous entry (association list keyed by the cache key). -/
def redisSetPair (redis : List (String × ExchangePair)) (key : String)
    (pair : ExchangePair) : List (String × ExchangePair) :=
  (key, pair) :: redis.filter (fun kv => kv.1 ≠ key)

/-- `SetExchangePair(exchange, pair, cache)` on the relational side:
1. conditional insert of the identifying triple (unlisted columns take
   their schema defaults — unverified, null links);
2. resolve base and quote token ids via `GetAssetID`; a failed resolution
   is only logged and leaves the id as the empty string;
3. when an id is non-empty, update that link on every row keyed by
   `(foreignname, exchange)`;
4. unconditionally update `verified` to `pair.Verified` on every row
   keyed by `(foreignname, exchange)`.
The optional redis write-through is handled separately by the caller of
this relational model (its failure is only logged and cannot change the
table). -/
def SetExchangePair (assetTable : List AssetRow) (pairTable : List ExchangePairRow)
    (exchange : String) (pair : ExchangePair) : List ExchangePairRow :=
  let t1 :=
    if pairTable.any (fun r =>
        r.symbol == pair.symbol && r.foreignname == pair.foreignName && r.exchange == exchange)
    then pairTable
    else pairTable ++ [{ symbol := pair.symbol, foreignname := pair.foreignName,
                         exchange := exchange, verified := false,
                         id_quotetoken := none, id_basetoken := none }]
  let basetokenID :=
    match GetAssetID assetTable pair.underlyingPair.baseToken with
    | .error _ => ""
    | .ok id => id
  let quotetokenID :=
    match GetAssetID assetTable pair.underlyingPair.quoteToken with
    | .error _ => ""
    | .ok id => id
  let t2 :=
    if basetokenID ≠ "" then
      t1.map (fun r =>
        if r.foreignname == pair.foreignName && r.exchange == exchange then
          { r with id_basetoken := some basetokenID }
        else r)
    else t1
  let t3 :=
    if quotetokenID ≠ "" then
      t2.map (fun r =>
        if r.foreignname == pair.foreignName && r.exchange == exchange then
          { r with id_quotetoken := some quotetokenID }
        else r)
    else t2
  t3.map (fun r =>
    if r.foreignname == pair.foreignName && r.exchange == exchange then
      { r with verified := pair.verified }
    else r)

/-!  ## General methods  -/

/-- The row loop of `GetPage`: the five-column projection is scanned with
`&asset.Decimals` (a `uint8`), so the driver itself parses the textual
decimals and rejects values outside `uint8` range; a scan error aborts
the loop, returning the assets accumulated so far. -/
def scanPageRows : List AssetRow → List Asset × Option String
  | [] => ([], none)
  | r :: rs =>
    match atoi? r.decimals with
    | none => ([], some "cannot scan into dest")
    | some d =>
      if 0 ≤ d ∧ d < 256 then
        let rest := scanPageRows rs
        ({ symbol := r.symbol, name := r.name, address := r.address,
           decimals := d.toNat, blockchain := r.blockchain } :: rest.1, rest.2)
      else ([], some "cannot scan into dest")

/-- pgx v4 `Rows.RawValues()` as `GetPage` reads it on the first result
set, after the scan loop has exhausted the rows: the raw column values
of the current (here: last fetched) row.  The five-column projection
leaves five entries when at least one row came back, and the field stays
nil when the result set was empty. -/
def rawValuesLenAfterLoop (rows : List AssetRow) : Nat :=
  if rows.isEmpty then 0 else 5

/-- pgx v4 `Rows.RawValues()` as `GetPage` reads it on the probe result
set: the call happens before any `Next()`, when no row has been fetched
yet, so the slice is nil — length 0 — regardless of what the probe query
returned. -/
def rawValuesLenBeforeNext (_rows : List AssetRow) : Nat := 0

/-- `GetPage(pageNumber)`: first query `select ... from asset LIMIT
pagesize OFFSET pagesize*pageNumber`; the guard `len(rows.RawValues()) <
int(pagesize)` compares the last row's column count (five, or zero for
an empty page) against the pagesize; past it, a second probe query runs
with the same LIMIT at OFFSET `skip+1` (one past the current offset, not
one past the current page), but its check
`len(nextPageRows.RawValues()) == 0` reads `RawValues` before any
`Next()`, so it always sees the nil slice and short-circuits
`hasNextPage=false`; the trailing `hasNextPage=true` is unreachable. -/
def GetPage (table : List AssetRow) (pagesize pageNumber : Nat) :
    List Asset × Bool × Option String :=
  let skip := pagesize * pageNumber
  let firstRows := (table.drop skip).take pagesize
  match scanPageRows firstRows with
  | (as, some e) => (as, false, some e)
  | (as, none) =>
    if rawValuesLenAfterLoop firstRows < pagesize then (as, false, none)
    else
      let nextPageRows := (table.drop (skip + 1)).take pagesize
      if rawValuesLenBeforeNext nextPageRows == 0 then (as, false, none)
      else (as, true, none)

/-!  ## Caching layer  -/

/-- Modelled from the spec: the literal key prefix of the asset cache
namespace (`asset:<internal-id>`); the constant `keyAssetCache` itself is
declared outside this source file.  No claim depends on its value. -/
def keyAssetCache : String := "asset:"

/-- `GetKeyAsset(asset)`: derive the redis key from the relational
primary key via `GetAssetID`, propagating its error. -/
def GetKeyAsset (table : List AssetRow) (asset : Asset) : Except String String :=
  match GetAssetID table asset with
  | .error e => .error e
  | .ok id => .ok (keyAssetCache ++ id)

/-- A redis `Set` on the asset namespace: overwrite the entry under
`key` (association list keyed by the cache key). -/
def redisSetAsset (redis : List (String × Asset)) (key : String) (a : Asset) :
    List (String × Asset) :=
  (key, a) :: redis.filter (fun kv => kv.1 ≠ key)

/-- `SetAssetCache(asset)`: derive the key with `GetKeyAsset` and return
its error — leaving the cache untouched — when the asset has no row in
the asset table; only on success is the redis `Set` executed. -/
def SetAssetCache (table : List AssetRow) (redis : List (String × Asset))
    (asset : Asset) : List (String × Asset) × Option String :=
  match GetKeyAsset table asset with
  | .error e => (redis, some e)
  | .ok key => (redisSetAsset redis key asset, none)

/-!  ## Influx volume discovery  -/

/-- One series of an influx query result; `values` are the result rows,
each a list of nullable column values (index 0 the timestamp, 1 the
address, 2 the blockchain, 3 the filter value for this query). -/
structure InfluxSeries where
  values : List (List (Option String)) := []
deriving DecidableEq, Repr, Inhabited

/-- One result of an influx query response (`res[i]`), holding its
series. -/
structure InfluxResult where
  series : List InfluxSeries := []
deriving DecidableEq, Repr, Inhabited

/-- One iteration of the `GetAssetsWithVOLInflux` loop: skip the row when
`val[1]` or `val[2]` is null, otherwise build the asset from address and
blockchain (all other fields stay at their zero values) and append it
unless already seen.  The Go `uniqueMap` always holds exactly the
elements of the accumulated slice, so membership in the accumulator
models the map lookup. -/
def volStep (acc : List Asset) (val : List (Option String)) : List Asset :=
  match val.getD 1 none, val.getD 2 none with
  | some addr, some bc =>
    let a : Asset := { address := addr, blockchain := bc }
    if a ∈ acc then acc else acc ++ [a]
  | _, _ => acc

/-- `GetAssetsWithVOLInflux` after the influx round trip, as a function
of the query response `res`: error when `res` is empty or its first
result has no series (outer `else` branch), error when the first series
has no values (inner `else` branch), and otherwise the deduplicating
fold over the values. -/
def GetAssetsWithVOLInflux (res : List InfluxResult) : Except String (List Asset) :=
  match res with
  | [] => .error "no recent asset with volume in influx"
  | r0 :: _ =>
    match r0.series with
    | [] => .error "no recent asset with volume in influx"
    | s0 :: _ =>
      if s0.values.isEmpty then .error "no recent assets with volume in influx"
      else .ok (s0.values.foldl volStep [])

/-!  ## Specification-side definitions

These definitions follow the wording of the specification claims (not the
Go control flow); the theorems below relate the source-derived functions
to them.  -/

/-- The filter `GetAssetsBySymbolName` is claimed to implement, written
per the claim's cases.  The both-empty case records the amendment forced
by the source's branch order: an empty `name` always selects the
symbol branch, so two empty arguments match the assets whose symbol is
the empty string, not every asset. -/
def symbolNameMatch (symbol name : String) (r : AssetRow) : Bool :=
  if symbol ≠ "" ∧ name = "" then r.symbol == symbol
  else if symbol = "" ∧ name ≠ "" then r.name == name
  else if symbol ≠ "" ∧ name ≠ "" then r.symbol == symbol && r.name == name
  else r.symbol == ""

/-- The conjunctive filter `IdentifyAsset` is claimed to build: one
conjunct per non-default candidate field, the address conjunct comparing
against the canonicalized hex form, and `decimals = 0` contributing no
conjunct at all. -/
def identifyMatch (a : Asset) (r : AssetRow) : Bool :=
  (a.symbol == "" || r.symbol == a.symbol) &&
  (a.name == "" || r.name == a.name) &&
  (a.address == "" || r.address == hexToAddressHex a.address) &&
  (decide (a.decimals = 0) || r.decimals == toString a.decimals) &&
  (a.blockchain == "" || r.blockchain == a.blockchain)

/-- Deduplication keeping the first occurrence of each element, in
encounter order — the spec's "deduplicated in first-seen order". -/
def dedupFirst {α : Type} [DecidableEq α] : List α → List α
  | [] => []
  | a :: l => a :: dedupFirst (l.filter (fun b => decide (b ≠ a)))
termination_by l => l.length
decreasing_by
  simp only [List.length_cons]
  exact Nat.lt_succ_of_le (List.length_filter_le _ _)

/-- The (address, blockchain) pair a volume row contributes, when both
columns are non-null. -/
def volPair? (val : List (Option String)) : Option Asset :=
  match val.getD 1 none, val.getD 2 none with
  | some addr, some bc => some { address := addr, blockchain := bc }
  | _, _ => none

/-- The claim's emptiness condition for `GetAssetsWithVOLInflux`: the
response has a first series and that series has at least one value. -/
def hasVolData : List InfluxResult → Bool
  | [] => false
  | r0 :: _ =>
    match r0.series with
    | [] => false
    | s0 :: _ => !s0.values.isEmpty

/-- The value rows of the first series of the response (empty when there
is none). -/
def firstSeriesValues : List InfluxResult → List (List (Option String))
  | [] => []
  | r0 :: _ =>
    match r0.series with
    | [] => []
    | s0 :: _ => s0.values

/-- The assets `GetAllAssets(blockchain)` is claimed to return: the rows
of the requested chain whose decimals parse, with the `Blockchain` field
overridden by the argument. -/
def specAllAssets (table : List AssetRow) (blockchain : String) : List Asset :=
  (table.filter (fun r => r.blockchain == blockchain)).filterMap
    (fun r => (rowToAsset? r).map (fun a => { a with blockchain := blockchain }))

/-- The nested token the claim says `GetExchangePair` assembles for a
link column: the zero-value asset for a null link, the `GetAssetByID`
resolution otherwise.  (The error fallback is arbitrary; under the
theorem's resolvability hypothesis it never arises.) -/
def resolveLinkedAsset (table : List AssetRow) : Option String → Asset
  | none => {}
  | some id =>
    match GetAssetByID table id with
    | .ok a => a
    | .error _ => {}

/-- The number of rows of the `exchangesymbol` table holding the given
(symbol, exchange) key. -/
def symbolKeyCount (table : List ExchangeSymbolRow) (exchange symbol : String) : Nat :=
  table.countP (fun r => r.symbol == symbol && r.exchange == exchange)

/-!  ## Example fixtures (used by counterexamples and witnesses)  -/

/-- A one-row asset table whose single row parses. -/
def exampleTable : List AssetRow :=
  [{ asset_id := "1", symbol := "BTC", name := "Bitcoin", address := "0xb",
     decimals := "8", blockchain := "Bitcoin" }]

/-- A four-row asset table for the paging scenario: with pagesize 2 it
holds two full pages. -/
def pageTable : List AssetRow :=
  [{ asset_id := "1", symbol := "A", decimals := "0" },
   { asset_id := "2", symbol := "B", decimals := "0" },
   { asset_id := "3", symbol := "C", decimals := "0" },
   { asset_id := "4", symbol := "D", decimals := "0" }]

/-!  ## Helper lemmas  -/

/-- When every row's decimals column parses, the shared row loop returns
all rows converted, with a `nil` error. -/
theorem scanAssetRows_of_parse (rows : List AssetRow)
    (h : ∀ r ∈ rows, (atoi? r.decimals).isSome) :
    scanAssetRows rows = (rows.filterMap rowToAsset?, none) := by
  induction rows with
  | nil => rfl
  | cons r rs ih =>
    have hr : (atoi? r.decimals).isSome = true := h r (List.mem_cons_self r rs)
    obtain ⟨d, hd⟩ := Option.isSome_iff_exists.mp hr
    have hra : rowToAsset? r = some
        { symbol := r.symbol, name := r.name, address := r.address,
          decimals := uint8ofInt d, blockchain := r.blockchain } := by
      simp [rowToAsset?, hd]
    have ihh := ih (fun x hx => h x (List.mem_cons_of_mem r hx))
    simp [scanAssetRows, hra, List.filterMap_cons, ihh]

/-- The predicate list built by `IdentifyAsset` is empty exactly when
every candidate field is default. -/
theorem identifyPreds_eq_nil_iff (a : Asset) :
    identifyPreds a = [] ↔
      (a.symbol = "" ∧ a.name = "" ∧ a.address = "" ∧ a.decimals = 0 ∧ a.blockchain = "") := by
  unfold identifyPreds
  by_cases h1 : a.symbol = "" <;> by_cases h2 : a.name = "" <;>
    by_cases h3 : a.address = "" <;> by_cases h4 : a.decimals = 0 <;>
    by_cases h5 : a.blockchain = "" <;>
    simp [h1, h2, h3, h4, h5]

/-- Evaluating the conjunction of `IdentifyAsset`'s predicate list on a
row agrees with the claim's conjunctive filter. -/
theorem identifyPreds_all (a : Asset) (r : AssetRow) :
    ((identifyPreds a).all (fun p => p r)) = identifyMatch a r := by
  apply Bool.eq_iff_iff.mpr
  unfold identifyPreds identifyMatch
  by_cases h1 : a.symbol = "" <;> by_cases h2 : a.name = "" <;>
    by_cases h3 : a.address = "" <;> by_cases h4 : a.decimals = 0 <;>
    by_cases h5 : a.blockchain = "" <;>
    · simp [h1, h2, h3, h4, h5, List.all_append, beq_iff_eq]
      try tauto

/-!  ## Claim theorems  -/

/-- Claim C1 (amended): `GetAssetsBySymbolName(symbol, name)` returns, on
a table whose decimals columns all parse and with a nil error, exactly
the assets selected by the claim's filter — symbol-only when `name` is
empty, name-only when `symbol` is empty, the conjunction when both are
non-empty — except that with both arguments empty it returns the assets
whose symbol is the empty string (the empty `name` selects the symbol
branch), not every asset in the table. -/
theorem c1_getAssetsBySymbolName (table : List AssetRow) (symbol name : String)
    (h : ∀ r ∈ table, (atoi? r.decimals).isSome) :
    GetAssetsBySymbolName table symbol name =
      ((table.filter (symbolNameMatch symbol name)).filterMap rowToAsset?, none) := by
  unfold GetAssetsBySymbolName
  by_cases hn : name = ""
  · rw [if_pos (by simp [hn])]
    rw [scanAssetRows_of_parse _ (fun r hr => h r (List.mem_of_mem_filter hr))]
    congr 1
    congr 1
    apply List.filter_congr
    intro r _
    by_cases hsy : symbol = "" <;> simp [symbolNameMatch, hn, hsy]
  · rw [if_neg (by simp [hn])]
    by_cases hsy : symbol = ""
    · rw [if_pos (by simp [hsy])]
      rw [scanAssetRows_of_parse _ (fun r hr => h r (List.mem_of_mem_filter hr))]
      congr 1
      congr 1
      apply List.filter_congr
      intro r _
      simp [symbolNameMatch, hn, hsy]
    · rw [if_neg (by simp [hsy])]
      rw [scanAssetRows_of_parse _ (fun r hr => h r (List.mem_of_mem_filter hr))]
      congr 1
      congr 1
      apply List.filter_congr
      intro r _
      simp [symbolNameMatch, hn, hsy]

/-- Claim C1 witness: the amended theorem applied to the one-row example
table at a non-empty symbol. -/
theorem c1_witness :
    GetAssetsBySymbolName exampleTable "BTC" "" =
      ((exampleTable.filter (symbolNameMatch "BTC" "")).filterMap rowToAsset?, none) :=
  c1_getAssetsBySymbolName exampleTable "BTC" "" (by decide)

/-- Claim C1 counterexample: on the one-row example table, calling with
both arguments empty returns no assets at all (the symbol branch filters
for the empty symbol), while the claim demands every asset of the
table. -/
theorem c1_counterexample :
    GetAssetsBySymbolName exampleTable "" "" = ([], none) ∧
    exampleTable.filterMap rowToAsset? ≠ [] := by
  constructor
  · decide
  · decide

/-- Claim C2 (code bug): `GetPage` can never report `hasNextPage = true` —
the probe's `len(nextPageRows.RawValues()) == 0` check reads `RawValues`
before any `Next()` call and therefore always sees the nil slice, so
every branch returns false.  At the failing input (pagesize 2, a
four-row asset table, page 0) the next page holds two assets, yet the
call reports `hasNextPage = false`, contradicting the claim (and the
function's own doc comment) that `hasNextPage` is true exactly when a
non-empty next page exists. -/
theorem c2_getPage_bug :
    (∀ (table : List AssetRow) (pagesize pageNumber : Nat),
        (GetPage table pagesize pageNumber).2.1 = false) ∧
    (GetPage pageTable 2 0).2.1 = false ∧ (GetPage pageTable 2 1).1 ≠ [] := by
  refine ⟨?_, by decide, by decide⟩
  intro table pagesize pageNumber
  unfold GetPage
  dsimp only
  split
  · rfl
  · split
    · rfl
    · split
      · rfl
      · simp [rawValuesLenBeforeNext] at *

/-- Claim C3 (amended): `IdentifyAsset(candidate)` filters by the
conjunction of exactly the non-default fields (address canonicalized,
`decimals = 0` contributing no conjunct), returning every match whose
decimals column parses; but with ALL fields default the generated
statement has an empty `where` clause and the call fails with the SQL
syntax error instead of returning every asset.  In particular a
candidate with only `Symbol` set returns every asset with that symbol
regardless of its other fields. -/
theorem c3_identifyAsset (table : List AssetRow) (a : Asset) (s : String) :
    (IdentifyAsset table a =
      if a.symbol = "" ∧ a.name = "" ∧ a.address = "" ∧ a.decimals = 0 ∧ a.blockchain = "" then
        .error "syntax error at end of input"
      else .ok ((table.filter (identifyMatch a)).filterMap rowToAsset?)) ∧
    (IdentifyAsset table { symbol := s } =
      if s = "" then .error "syntax error at end of input"
      else .ok ((table.filter (fun r => r.symbol == s)).filterMap rowToAsset?)) := by
  constructor
  · by_cases hdef : a.symbol = "" ∧ a.name = "" ∧ a.address = "" ∧ a.decimals = 0 ∧ a.blockchain = ""
    · rw [if_pos hdef]
      have hnil : identifyPreds a = [] := (identifyPreds_eq_nil_iff a).mpr hdef
      simp only [IdentifyAsset, hnil, List.isEmpty_nil, if_true]
    · rw [if_neg hdef]
      have hne : identifyPreds a ≠ [] :=
        fun hnil => hdef ((identifyPreds_eq_nil_iff a).mp hnil)
      have hisEmpty : (identifyPreds a).isEmpty = false := by
        cases hlist : identifyPreds a with
        | nil => exact absurd hlist hne
        | cons x xs => rfl
      simp only [IdentifyAsset, hisEmpty, Bool.false_eq_true, if_false]
      congr 1
      congr 1
      apply List.filter_congr
      intro r _
      exact identifyPreds_all a r
  · by_cases hs : s = ""
    · simp [IdentifyAsset, identifyPreds, hs]
    · simp [IdentifyAsset, identifyPreds, hs]

/-- Claim C3 counterexample: on the one-row example table, the all-default
candidate makes `IdentifyAsset` fail with the empty-`where`-clause syntax
error, while the claim demands every asset of the table. -/
theorem c3_counterexample :
    IdentifyAsset exampleTable {} = .error "syntax error at end of input" ∧
    exampleTable.filterMap rowToAsset? ≠ [] := by
  constructor
  · rfl
  · decide

/-- After a matching `VerifyExchangeSymbol` update, the row `QueryRow`
finds for the key carries `verified = true` and the supplied asset id. -/
theorem find_verify_updated (table : List ExchangeSymbolRow) (exchange symbol assetID : String)
    (h : ∃ r ∈ table, (r.symbol == symbol && r.exchange == exchange) = true) :
    (table.map (fun r =>
        if r.symbol == symbol && r.exchange == exchange then
          { r with verified := true, asset_id := some assetID }
        else r)).find? (fun r => r.symbol == symbol && r.exchange == exchange) =
      some { symbol := symbol, exchange := exchange, verified := true,
             asset_id := some assetID } := by
  induction table with
  | nil =>
    obtain ⟨r, hr, _⟩ := h
    exact absurd hr (List.not_mem_nil r)
  | cons r rs ih =>
    by_cases hr : (r.symbol == symbol && r.exchange == exchange) = true
    · have hh := hr
      rw [Bool.and_eq_true, beq_iff_eq, beq_iff_eq] at hh
      obtain ⟨h1, h2⟩ := hh
      subst h1
      subst h2
      simp only [List.map_cons, if_pos hr]
      simp [List.find?_cons]
    · simp only [List.map_cons, if_neg hr]
      rw [List.find?_cons_of_neg _ (by simpa using hr)]
      apply ih
      obtain ⟨x, hx, hpx⟩ := h
      rcases List.mem_cons.mp hx with rfl | hx2
      · exact absurd hpx hr
      · exact ⟨x, hx2, hpx⟩

/-- Claim C4: `VerifyExchangeSymbol(exchange, symbol, assetID)` returns
`(false, nil)` — leaving the table unchanged — when the (symbol,
exchange) pair has no row; when the pair is present (in particular when
still unverified) it returns `(true, nil)` and a subsequent
`GetExchangeSymbolAssetID(exchange, symbol)` reads back `verified = true`
with the supplied asset id. -/
theorem c4_verifyExchangeSymbol (table : List ExchangeSymbolRow)
    (exchange symbol assetID : String) :
    ((∀ r ∈ table, ¬(r.symbol = symbol ∧ r.exchange = exchange)) →
        VerifyExchangeSymbol table exchange symbol assetID = (table, false)) ∧
    ((∃ r ∈ table, r.symbol = symbol ∧ r.exchange = exchange) →
        (VerifyExchangeSymbol table exchange symbol assetID).2 = true ∧
        GetExchangeSymbolAssetID (VerifyExchangeSymbol table exchange symbol assetID).1
          exchange symbol = .ok (assetID, true)) := by
  constructor
  · intro h
    have hforall : ∀ r ∈ table, ¬(r.symbol == symbol && r.exchange == exchange) = true := by
      intro r hrmem hcontra
      rw [Bool.and_eq_true, beq_iff_eq, beq_iff_eq] at hcontra
      exact h r hrmem hcontra
    unfold VerifyExchangeSymbol
    have hcount : table.countP (fun r => r.symbol == symbol && r.exchange == exchange) = 0 :=
      List.countP_eq_zero.mpr hforall
    have hmap : table.map (fun r =>
        if r.symbol == symbol && r.exchange == exchange then
          { r with verified := true, asset_id := some assetID }
        else r) = table := by
      rw [List.map_congr_left (fun r hrmem => if_neg (hforall r hrmem))]
      simp
    rw [hcount, hmap]
    rfl
  · intro h
    obtain ⟨r, hrmem, hr1, hr2⟩ := h
    have hbeq : ∃ x ∈ table, (x.symbol == symbol && x.exchange == exchange) = true :=
      ⟨r, hrmem, by rw [Bool.and_eq_true, beq_iff_eq, beq_iff_eq]; exact ⟨hr1, hr2⟩⟩
    constructor
    · unfold VerifyExchangeSymbol
      have : table.countP (fun x => x.symbol == symbol && x.exchange == exchange) ≠ 0 := by
        intro hzero
        obtain ⟨x, hx, hpx⟩ := hbeq
        exact (List.countP_eq_zero.mp hzero) x hx hpx
      simpa using this
    · unfold VerifyExchangeSymbol GetExchangeSymbolAssetID
      rw [find_verify_updated table exchange symbol assetID hbeq]
      rfl

/-- Claim C4 witness: on a one-row table holding unverified ("BTC",
"Binance"), verifying against exchange "Kraken" touches nothing and
returns false, while verifying on "Binance" returns true and the
read-back shows the supplied id as verified. -/
theorem c4_witness :
    VerifyExchangeSymbol [{ symbol := "BTC", exchange := "Binance" }] "Kraken" "BTC" "id1" =
      ([{ symbol := "BTC", exchange := "Binance" }], false) ∧
    GetExchangeSymbolAssetID
      (VerifyExchangeSymbol [{ symbol := "BTC", exchange := "Binance" }] "Binance" "BTC" "id1").1
      "Binance" "BTC" = .ok ("id1", true) :=
  ⟨(c4_verifyExchangeSymbol [{ symbol := "BTC", exchange := "Binance" }] "Kraken" "BTC" "id1").1
      (by decide),
   ((c4_verifyExchangeSymbol [{ symbol := "BTC", exchange := "Binance" }] "Binance" "BTC" "id1").2
      ⟨{ symbol := "BTC", exchange := "Binance" }, by decide, by decide⟩).2⟩

/-- `SetExchangeSymbol` is a no-op when the pair is already present. -/
theorem setExchangeSymbol_noop (table : List ExchangeSymbolRow) (exchange symbol : String)
    (h : table.any (fun r => r.symbol == symbol && r.exchange == exchange) = true) :
    SetExchangeSymbol table exchange symbol = table := by
  unfold SetExchangeSymbol
  rw [if_pos h]

/-- After any `SetExchangeSymbol`, the pair is present. -/
theorem setExchangeSymbol_mem (table : List ExchangeSymbolRow) (exchange symbol : String) :
    (SetExchangeSymbol table exchange symbol).any
      (fun r => r.symbol == symbol && r.exchange == exchange) = true := by
  unfold SetExchangeSymbol
  by_cases h : table.any (fun r => r.symbol == symbol && r.exchange == exchange) = true
  · rw [if_pos h]
    exact h
  · rw [if_neg h]
    simp

/-- Claim C5: `SetExchangeSymbol(exchange, symbol)` is an idempotent
conditional insert: the second of two identical calls is a no-op (it
returns without error by construction — the statement is a plain Exec),
and starting from a table holding at most one row for the pair, two
identical calls leave exactly one row for it. -/
theorem c5_setExchangeSymbol (table : List ExchangeSymbolRow) (exchange symbol : String) :
    SetExchangeSymbol (SetExchangeSymbol table exchange symbol) exchange symbol =
      SetExchangeSymbol table exchange symbol ∧
    (symbolKeyCount table exchange symbol ≤ 1 →
      symbolKeyCount (SetExchangeSymbol (SetExchangeSymbol table exchange symbol) exchange symbol)
        exchange symbol = 1) := by
  have hidem := setExchangeSymbol_noop (SetExchangeSymbol table exchange symbol) exchange symbol
      (setExchangeSymbol_mem table exchange symbol)
  refine ⟨hidem, ?_⟩
  intro hle
  rw [hidem]
  unfold symbolKeyCount at hle ⊢
  unfold SetExchangeSymbol
  by_cases h : table.any (fun r => r.symbol == symbol && r.exchange == exchange) = true
  · rw [if_pos h]
    have hpos : 0 < table.countP (fun r => r.symbol == symbol && r.exchange == exchange) := by
      rw [List.countP_pos_iff]
      simpa [List.any_eq_true] using h
    omega
  · rw [if_neg h]
    have hzero : table.countP (fun r => r.symbol == symbol && r.exchange == exchange) = 0 := by
      rw [List.countP_eq_zero]
      intro a ha hpa
      exact h (List.any_eq_true.mpr ⟨a, ha, hpa⟩)
    rw [List.countP_append, hzero]
    simp

/-- Claim C5 witness: two identical inserts into the empty table leave
exactly one ("BTC", "Binance") row, the second being a no-op. -/
theorem c5_witness :
    SetExchangeSymbol (SetExchangeSymbol [] "Binance" "BTC") "Binance" "BTC" =
      SetExchangeSymbol [] "Binance" "BTC" ∧
    symbolKeyCount (SetExchangeSymbol (SetExchangeSymbol [] "Binance" "BTC") "Binance" "BTC")
      "Binance" "BTC" = 1 :=
  ⟨(c5_setExchangeSymbol [] "Binance" "BTC").1,
   (c5_setExchangeSymbol [] "Binance" "BTC").2 (by decide)⟩

theorem dedupFirst_nil {α : Type} [DecidableEq α] : dedupFirst ([] : List α) = [] := by
  simp [dedupFirst]

theorem dedupFirst_cons {α : Type} [DecidableEq α] (a : α) (l : List α) :
    dedupFirst (a :: l) = a :: dedupFirst (l.filter (fun b => decide (b ≠ a))) := by
  simp [dedupFirst]

/-- One loop iteration, phrased through the extracted pair. -/
theorem volStep_eq (acc : List Asset) (val : List (Option String)) :
    volStep acc val =
      match volPair? val with
      | none => acc
      | some a => if a ∈ acc then acc else acc ++ [a] := by
  unfold volStep volPair?
  cases val.getD 1 none <;> cases val.getD 2 none <;> simp

/-- The deduplicating fold of `GetAssetsWithVOLInflux` computes
first-seen-order deduplication of the extracted pairs, relative to the
pairs already accumulated. -/
theorem volFold_eq (rows : List (List (Option String))) (acc : List Asset) :
    rows.foldl volStep acc =
      acc ++ dedupFirst ((rows.filterMap volPair?).filter (fun a => decide (a ∉ acc))) := by
  induction rows generalizing acc with
  | nil => simp [dedupFirst_nil]
  | cons val rest ih =>
    rw [List.foldl_cons, List.filterMap_cons, volStep_eq]
    cases hv : volPair? val with
    | none => simpa using ih acc
    | some a =>
      dsimp only
      by_cases hmem : a ∈ acc
      · rw [if_pos hmem, List.filter_cons]
        have hna : decide (a ∉ acc) = false := by simp [hmem]
        rw [hna]
        simpa using ih acc
      · rw [if_neg hmem, List.filter_cons]
        have hna : decide (a ∉ acc) = true := by simp [hmem]
        rw [hna]
        simp only [if_true, dedupFirst_cons]
        rw [ih (acc ++ [a])]
        rw [List.filter_filter]
        rw [List.append_assoc, List.singleton_append]
        congr 3
        apply List.filter_congr
        intro x _
        apply Bool.eq_iff_iff.mpr
        simp [List.mem_append]
        tauto

/-- Claim C6: `GetAssetsWithVOLInflux` fails with the
no-recent-volume-data error exactly when the queried result has no
series or the first series has no values; otherwise it returns the
(address, blockchain) pairs — rows with a null address or blockchain
skipped — deduplicated in first-seen order. -/
theorem c6_getAssetsWithVOLInflux (res : List InfluxResult) :
    (hasVolData res = true →
        GetAssetsWithVOLInflux res =
          .ok (dedupFirst ((firstSeriesValues res).filterMap volPair?))) ∧
    (hasVolData res = false →
        ∃ msg, GetAssetsWithVOLInflux res = .error msg) := by
  constructor
  · intro h
    cases res with
    | nil => simp [hasVolData] at h
    | cons r0 rtl =>
      cases hs : r0.series with
      | nil => simp [hasVolData, hs] at h
      | cons s0 stl =>
        have hne : s0.values.isEmpty = false := by
          have hh := h
          simp [hasVolData, hs] at hh
          simpa using hh
        unfold GetAssetsWithVOLInflux firstSeriesValues
        dsimp only
        rw [hs]
        simp only [hne, Bool.false_eq_true, if_false]
        rw [volFold_eq]
        simp
  · intro h
    cases res with
    | nil => exact ⟨_, rfl⟩
    | cons r0 rtl =>
      cases hs : r0.series with
      | nil =>
        unfold GetAssetsWithVOLInflux
        dsimp only
        rw [hs]
        exact ⟨_, rfl⟩
      | cons s0 stl =>
        have hemp : s0.values.isEmpty = true := by
          simp [hasVolData, hs] at h
          simpa using h
        unfold GetAssetsWithVOLInflux
        dsimp only
        rw [hs]
        simp only [hemp, if_true]
        exact ⟨_, rfl⟩

/-- Claim C6 witness: a response whose only series repeats one pair and
carries one null-address row yields the single deduplicated pair, and
the empty response yields the error. -/
theorem c6_witness :
    GetAssetsWithVOLInflux
      [{ series := [{ values :=
          [[some "t1", some "0xa", some "Ethereum", some "1"],
           [some "t2", none, some "Ethereum", some "2"],
           [some "t3", some "0xa", some "Ethereum", some "3"]] }] }] =
      .ok [{ address := "0xa", blockchain := "Ethereum" }] ∧
    (∃ msg, GetAssetsWithVOLInflux [] = .error msg) := by
  constructor
  · have happ := (c6_getAssetsWithVOLInflux
      [{ series := [{ values :=
          [[some "t1", some "0xa", some "Ethereum", some "1"],
           [some "t2", none, some "Ethereum", some "2"],
           [some "t3", some "0xa", some "Ethereum", some "3"]] }] }]).1 (by rfl)
    rw [happ]
    simp [firstSeriesValues, volPair?, dedupFirst_cons, dedupFirst_nil]
  · exact (c6_getAssetsWithVOLInflux []).2 (by rfl)

/-- Claim C7: when the (exchange, foreignname) row exists and every
non-null token link resolves, `GetExchangePair` succeeds; a null
base-token or quote-token link yields the zero-value nested `Asset`
(no resolution attempted, no error), and a non-null link is resolved
into the full `GetAssetByID` record. -/
theorem c7_getExchangePair (assetTable : List AssetRow) (pairTable : List ExchangePairRow)
    (exchange foreignname : String) (row : ExchangePairRow)
    (hfind : pairTable.find? (fun r => r.exchange == exchange && r.foreignname == foreignname) =
      some row)
    (hq : ∀ id, row.id_quotetoken = some id → ∃ a, GetAssetByID assetTable id = .ok a)
    (hb : ∀ id, row.id_basetoken = some id → ∃ a, GetAssetByID assetTable id = .ok a) :
    GetExchangePair assetTable pairTable exchange foreignname =
      .ok { exchange := exchange, foreignName := foreignname,
            symbol := row.symbol, verified := row.verified,
            underlyingPair :=
              { quoteToken := resolveLinkedAsset assetTable row.id_quotetoken,
                baseToken := resolveLinkedAsset assetTable row.id_basetoken } } := by
  unfold GetExchangePair
  rw [hfind]
  cases hqt : row.id_quotetoken with
  | none =>
    cases hbt : row.id_basetoken with
    | none =>
      simp only [hqt, hbt]
      rfl
    | some bid =>
      obtain ⟨ba, hba⟩ := hb bid hbt
      simp only [hqt, hbt, hba]
      simp [resolveLinkedAsset, hba]
  | some qid =>
    obtain ⟨qa, hqa⟩ := hq qid hqt
    cases hbt : row.id_basetoken with
    | none =>
      simp only [hqt, hbt, hqa]
      simp [resolveLinkedAsset, hqa]
    | some bid =>
      obtain ⟨ba, hba⟩ := hb bid hbt
      simp only [hqt, hbt, hqa, hba]
      simp [resolveLinkedAsset, hqa, hba]

/-- Claim C7 witness: a stored pair with a resolvable quote link and a
null base link round-trips with the base token as the zero-value asset
and the quote token fully resolved. -/
theorem c7_witness :
    GetExchangePair
      [{ asset_id := "q1", symbol := "QT", name := "Quote", address := "0xq",
         decimals := "6", blockchain := "Ethereum" }]
      [{ symbol := "QTBT", foreignname := "QT-BT", exchange := "Binance",
         verified := true, id_quotetoken := some "q1", id_basetoken := none }]
      "Binance" "QT-BT" =
    .ok { exchange := "Binance", foreignName := "QT-BT", symbol := "QTBT", verified := true,
          underlyingPair :=
            { quoteToken := resolveLinkedAsset
                [{ asset_id := "q1", symbol := "QT", name := "Quote", address := "0xq",
                   decimals := "6", blockchain := "Ethereum" }] (some "q1"),
              baseToken := resolveLinkedAsset
                [{ asset_id := "q1", symbol := "QT", name := "Quote", address := "0xq",
                   decimals := "6", blockchain := "Ethereum" }] none } } :=
  c7_getExchangePair
    [{ asset_id := "q1", symbol := "QT", name := "Quote", address := "0xq",
       decimals := "6", blockchain := "Ethereum" }]
    [{ symbol := "QTBT", foreignname := "QT-BT", exchange := "Binance",
       verified := true, id_quotetoken := some "q1", id_basetoken := none }]
    "Binance" "QT-BT"
    { symbol := "QTBT", foreignname := "QT-BT", exchange := "Binance",
      verified := true, id_quotetoken := some "q1", id_basetoken := none }
    (by rfl)
    (fun id h => by cases h; exact ⟨_, rfl⟩)
    (fun id h => by cases h)

/-- Claim C8: `SetAssetCache(asset)` fails — returning `GetAssetID`'s
no-rows error and leaving the cache untouched — whenever the asset's
(address, blockchain) pair has no row in the asset table; the redis
write happens only after the key derivation succeeds, so an unpersisted
asset is never cached. -/
theorem c8_setAssetCache (table : List AssetRow) (redis : List (String × Asset)) (asset : Asset)
    (h : ∀ r ∈ table, ¬(r.address = asset.address ∧ r.blockchain = asset.blockchain)) :
    SetAssetCache table redis asset = (redis, some "no rows in result set") := by
  have hfind : table.find?
      (fun r => r.address == asset.address && r.blockchain == asset.blockchain) = none := by
    rw [List.find?_eq_none]
    intro r hr hcontra
    rw [Bool.and_eq_true, beq_iff_eq, beq_iff_eq] at hcontra
    exact h r hr hcontra
  unfold SetAssetCache GetKeyAsset GetAssetID
  rw [hfind]

/-- Claim C8 witness: caching an asset against a table that does not hold
its (address, blockchain) pair fails and leaves the cache empty. -/
theorem c8_witness :
    SetAssetCache exampleTable [] { symbol := "ETH", address := "0xe", blockchain := "Ethereum" } =
      ([], some "no rows in result set") :=
  c8_setAssetCache exampleTable []
    { symbol := "ETH", address := "0xe", blockchain := "Ethereum" } (by decide)

/-- Mapping a property-preserving function keeps a property-witnessing
member. -/
theorem exists_mem_map_of_preserve {α : Type} {f : α → α} {P : α → Prop}
    (hf : ∀ x, P x → P (f x)) {t : List α} (h : ∃ x ∈ t, P x) :
    ∃ y ∈ t.map f, P y := by
  obtain ⟨x, hx, hpx⟩ := h
  exact ⟨f x, List.mem_map_of_mem f hx, hf x hpx⟩

/-- The conditional-update stages of `SetExchangePair` keep a
property-witnessing member whether or not they run. -/
theorem exists_mem_ite_map_of_preserve {α : Type} {c : Prop} [Decidable c] {f : α → α}
    {P : α → Prop} (hf : ∀ x, P x → P (f x)) {t : List α} (h : ∃ x ∈ t, P x) :
    ∃ y ∈ (if c then t.map f else t), P y := by
  split
  · exact exists_mem_map_of_preserve hf h
  · exact h

/-- Claim C9: `SetExchangePair(exchange, pair, cache)` ends by
unconditionally setting `verified` to `pair.Verified` on every row keyed
by (foreignname, exchange) — at least one such row exists afterwards —
so, unlike exchange-symbol verification, a later call with
`pair.Verified = false` un-verifies a previously verified pair. -/
theorem c9_setExchangePair (assetTable : List AssetRow) (pairTable : List ExchangePairRow)
    (exchange : String) (pair : ExchangePair) :
    (∃ r ∈ SetExchangePair assetTable pairTable exchange pair,
        r.foreignname = pair.foreignName ∧ r.exchange = exchange) ∧
    (∀ r ∈ SetExchangePair assetTable pairTable exchange pair,
        r.foreignname = pair.foreignName → r.exchange = exchange →
        r.verified = pair.verified) := by
  unfold SetExchangePair
  dsimp only
  constructor
  · apply exists_mem_map_of_preserve
    · intro x hx
      by_cases hc : (x.foreignname == pair.foreignName && x.exchange == exchange) = true <;>
        simpa [hc] using hx
    apply exists_mem_ite_map_of_preserve
    · intro x hx
      by_cases hc : (x.foreignname == pair.foreignName && x.exchange == exchange) = true <;>
        simpa [hc] using hx
    apply exists_mem_ite_map_of_preserve
    · intro x hx
      by_cases hc : (x.foreignname == pair.foreignName && x.exchange == exchange) = true <;>
        simpa [hc] using hx
    by_cases hany : (pairTable.any (fun r =>
        r.symbol == pair.symbol && r.foreignname == pair.foreignName &&
          r.exchange == exchange)) = true
    · rw [if_pos hany]
      obtain ⟨x, hx, hpx⟩ := List.any_eq_true.mp hany
      simp only [Bool.and_eq_true, beq_iff_eq] at hpx
      exact ⟨x, hx, hpx.1.2, hpx.2⟩
    · rw [if_neg hany]
      exact ⟨_, List.mem_append_right _ (List.mem_singleton_self _), rfl, rfl⟩
  · intro r hr h1 h2
    obtain ⟨x, hx, hfx⟩ := List.mem_map.mp hr
    by_cases hkey : (x.foreignname == pair.foreignName && x.exchange == exchange) = true
    · rw [← hfx]
      simp [hkey]
    · rw [if_neg hkey] at hfx
      subst hfx
      exfalso
      apply hkey
      rw [Bool.and_eq_true, beq_iff_eq, beq_iff_eq]
      exact ⟨h1, h2⟩

/-- Claim C9 witness: a pair row stored verified becomes unverified after
`SetExchangePair` runs with `pair.Verified = false` for the same
(foreignname, exchange) key; the updated row is a member of the result
and its verified flag is false. -/
theorem c9_witness :
    ((⟨"S", "FN", "E", false, none, none⟩ : ExchangePairRow) ∈
        SetExchangePair [] [⟨"S", "FN", "E", true, none, none⟩] "E"
          { symbol := "S", foreignName := "FN", verified := false }) ∧
    (⟨"S", "FN", "E", false, none, none⟩ : ExchangePairRow).verified = false := by
  constructor
  · decide
  · exact (c9_setExchangePair [] [⟨"S", "FN", "E", true, none, none⟩] "E"
      { symbol := "S", foreignName := "FN", verified := false }).2
      ⟨"S", "FN", "E", false, none, none⟩ (by decide) rfl rfl

/-- Claim C10: `GetAllAssets(blockchain)` never reports a row-level
failure: it returns a nil error together with exactly the rows of the
requested chain whose decimals column parses (unparsable rows are
silently skipped), and every returned asset carries the argument as its
`Blockchain` field. -/
theorem c10_getAllAssets (table : List AssetRow) (blockchain : String) :
    GetAllAssets table blockchain = (specAllAssets table blockchain, none) ∧
    (∀ a ∈ (GetAllAssets table blockchain).1, a.blockchain = blockchain) := by
  have hfun : ∀ r : AssetRow,
      (atoi? r.decimals).map (fun d =>
        ({ symbol := r.symbol, name := r.name, address := r.address,
           decimals := uint8ofInt d, blockchain := blockchain } : Asset)) =
      (rowToAsset? r).map (fun a => { a with blockchain := blockchain }) := by
    intro r
    cases hd : atoi? r.decimals <;> simp [rowToAsset?, hd]
  constructor
  · unfold GetAllAssets specAllAssets
    simp only [hfun]
  · intro a ha
    unfold GetAllAssets at ha
    obtain ⟨r, hr, heq⟩ := List.mem_filterMap.mp ha
    cases hd : atoi? r.decimals with
    | none =>
      rw [hd] at heq
      cases heq
    | some d =>
      rw [hd] at heq
      simp only [Option.map_some', Option.some.injEq] at heq
      subst heq
      rfl

/-- Claim C10 witness: on a three-row table — one parsable Ethereum row,
one Ethereum row with a malformed decimals column, one Bitcoin row — the
call returns the single surviving asset with no error, and that asset's
blockchain field equals the argument. -/
theorem c10_witness :
    GetAllAssets
      [{ asset_id := "1", symbol := "A", decimals := "18", blockchain := "Ethereum" },
       { asset_id := "2", symbol := "B", decimals := "x", blockchain := "Ethereum" },
       { asset_id := "3", symbol := "C", decimals := "8", blockchain := "Bitcoin" }]
      "Ethereum" =
      (specAllAssets
        [{ asset_id := "1", symbol := "A", decimals := "18", blockchain := "Ethereum" },
         { asset_id := "2", symbol := "B", decimals := "x", blockchain := "Ethereum" },
         { asset_id := "3", symbol := "C", decimals := "8", blockchain := "Bitcoin" }]
        "Ethereum", none) ∧
    ({ symbol := "A", decimals := 18, blockchain := "Ethereum" } : Asset).blockchain =
      "Ethereum" :=
  ⟨(c10_getAllAssets
      [{ asset_id := "1", symbol := "A", decimals := "18", blockchain := "Ethereum" },
       { asset_id := "2", symbol := "B", decimals := "x", blockchain := "Ethereum" },
       { asset_id := "3", symbol := "C", decimals := "8", blockchain := "Bitcoin" }]
      "Ethereum").1,
   (c10_getAllAssets
      [{ asset_id := "1", symbol := "A", decimals := "18", blockchain := "Ethereum" },
       { asset_id := "2", symbol := "B", decimals := "x", blockchain := "Ethereum" },
       { asset_id := "3", symbol := "C", decimals := "8", blockchain := "Bitcoin" }]
      "Ethereum").2
      { symbol := "A", decimals := 18, blockchain := "Ethereum" } (by decide)⟩

end Diadata
